import Mathlib

/-!
The Avail data-availability client of go-da.

A shallow embedding of `da/da.go` (the result model) and `da/avail/avail.go`
(the Avail backend adapter), followed by theorems about `Init`, `SubmitBlock`,
`CheckBlockAvailability` and `RetrieveBlocks`.

Conventions of the embedding.

* `uint64` and `uint32` values are natural numbers; the one narrowing conversion of
  the source, `uint32(blockNumber)`, is written `blockNumber % 2 ^ 32`.
* `[]byte` is `List UInt8`.  A Go `string` holding data (a response body, an
  extrinsic) is its byte sequence, so `[]byte(s)` and `string(b)` are the identity;
  texts that only travel into `Message` (URLs, error texts) are `String`.
* A Go `error` is represented by the text of its `Error()` method.
* A `float64` obtained from JSON (or left at its zero value) is finite; it is
  represented by its exact rational value, on which `>` agrees with Go.
* Library functions and collaborators outside `avail.go` (`fmt.Sprintf`, `http.Get`
  with `ioutil.ReadAll`, `json.Unmarshal`, `Block.MarshalBinary`,
  `datasubmit.SubmitData`) are the fields of an environment `Env`.
* The `goto Loop` of `RetrieveBlocks` is unbounded; the embedding runs it with a fuel
  argument and reports `running` when the fuel is used up before a `return`.
-/

namespace da

/-- The type `StatusCode` of `da.go`, with its four constants in `iota` order. -/
inductive StatusCode where
  | StatusUnknown
  | StatusSuccess
  | StatusNotFound
  | StatusError
  deriving DecidableEq, Repr

/-- The part of `types.Block` of rollkit that `avail.go` writes: the height of the
base header and the list of transactions.  All other fields are left at zero. -/
structure Block where
  Height : Nat
  Txs : List (List UInt8)
  deriving DecidableEq, Repr

/-- The struct `BaseResult` of `da.go`; a field left out of a composite literal has
its zero value (`StatusUnknown`, the empty string, `0`). -/
structure BaseResult where
  Code : StatusCode := StatusCode.StatusUnknown
  Message : String := ""
  DAHeight : Nat := 0
  deriving DecidableEq, Repr

/-- The struct `ResultSubmitBlock` of `da.go`. -/
structure ResultSubmitBlock extends BaseResult
  deriving DecidableEq, Repr

/-- The struct `ResultCheckBlock` of `da.go`. -/
structure ResultCheckBlock extends BaseResult where
  DataAvailable : Bool := false
  deriving DecidableEq, Repr

/-- The struct `ResultRetrieveBlocks` of `da.go`; a nil slice is the empty list. -/
structure ResultRetrieveBlocks extends BaseResult where
  Blocks : List Block := []
  deriving DecidableEq, Repr

end da

namespace avail

open da

set_option linter.dupNamespace false

/-- The struct `Config` of `avail.go`. -/
structure Config where
  BaseURL : String := ""
  Seed : String := ""
  ApiURL : String := ""
  AppID : Int := 0
  Confidence : ℚ := 0
  deriving DecidableEq

/-- A value of the interface `log.Logger`, known only by its identity. -/
structure Logger where
  handle : Nat
  deriving DecidableEq, Repr

/-- A value of the interface `ds.Datastore`, known only by its identity. -/
structure Datastore where
  handle : Nat
  deriving DecidableEq, Repr

/-- The struct `DataAvailabilityLayerClient` of `avail.go`; its field `namespace` is
written `namespaceID` here, the source name being a reserved word. -/
structure DataAvailabilityLayerClient where
  namespaceID : List UInt8
  config : Config
  logger : Logger
  deriving DecidableEq

/-- The struct `Confidence` of `avail.go`. -/
structure Confidence where
  Block : Nat := 0
  Confidence : ℚ := 0
  SerialisedConfidence : Option String := none
  deriving DecidableEq

/-- The struct `AppData` of `avail.go`. -/
structure AppData where
  Block : Nat := 0
  Extrinsics : List (List UInt8) := []
  deriving DecidableEq, Repr

/-- The struct `InitRequest` of `avail.go`. -/
structure InitRequest where
  namespaceID : List UInt8
  config : List UInt8
  kvStore : Datastore
  logger : Logger

/-- The struct `InitResponse` of `avail.go`. -/
structure InitResponse where
  err : Option String

/-- What one `http.Get` followed by `ioutil.ReadAll` of the body yields: the request
fails, or reading the body fails, or the body is read in full. -/
inductive HttpOutcome where
  | getError (err : String)
  | readError (err : String)
  | body (responseData : List UInt8)
  deriving DecidableEq, Repr

/-- Modelled from the spec: the type of the transaction identifier returned by
`datasubmit.SubmitData`, whose declaration is not in `avail.go`.  The source slices it
with `txHash[:]` and the spec calls it a fixed-size byte array; the size of the array
is the parameter `hashLen`. -/
structure Hash (hashLen : Nat) where
  bytes : List UInt8
  size_eq : bytes.length = hashLen

/-- The collaborators of `avail.go`.
`httpGet k url` is the outcome of the request number `k` (counted from `0` within one
operation) for `url`; `unmarshalConfig data cfg` is `json.Unmarshal(data, &cfg)`, which
returns the config it leaves behind together with the error, if any. -/
structure Env (hashLen : Nat) where
  Sprintf : String → Nat → String
  httpGet : Nat → String → HttpOutcome
  unmarshalConfig : List UInt8 → Config → Config × Option String
  unmarshalConfidence : List UInt8 → Except String Confidence
  unmarshalAppData : List UInt8 → Except String AppData
  MarshalBinary : Block → Except String (List UInt8)
  SubmitData : String → String → Int → List UInt8 → Except String (Hash hashLen)

/-- The bytes of a string literal of the source. -/
def bytesOf (s : String) : List UInt8 :=
  s.toList.flatMap String.utf8EncodeChar

/-- The table `hextable` of `encoding/hex`. -/
def hextable : List Char := "0123456789abcdef".toList

/-- The function `hex.EncodeToString`: two characters of `hextable` per byte, the high
nibble `v >> 4` first, then the low nibble `v & 0x0f`. -/
def EncodeToString (src : List UInt8) : String :=
  String.mk (src.flatMap fun v =>
    [hextable.getD (v.toNat >>> 4) '0', hextable.getD (v.toNat &&& 0x0f) '0'])

/-- The function `fromHexChar` of `encoding/hex`: the value of a hexadecimal digit,
in either case; any other character has none. -/
def fromHexChar (ch : Char) : Option Nat :=
  if '0' ≤ ch ∧ ch ≤ '9' then some (ch.toNat - '0'.toNat)
  else if 'a' ≤ ch ∧ ch ≤ 'f' then some (ch.toNat - 'a'.toNat + 10)
  else if 'A' ≤ ch ∧ ch ≤ 'F' then some (ch.toNat - 'A'.toNat + 10)
  else none

/-- The function `hex.DecodeString`, the reader of what `hex.EncodeToString` writes:
each pair of digits `hi lo` is the byte `(hi << 4) | lo`; a text of odd length or with a
character that is not a digit is refused. -/
def DecodeString : List Char → Option (List UInt8)
  | [] => some []
  | [_] => none
  | hi :: lo :: rest =>
    match fromHexChar hi, fromHexChar lo, DecodeString rest with
    | some a, some b, some bytes => some (UInt8.ofNat (a <<< 4 ||| b) :: bytes)
    | _, _, _ => none

/-- The method `Init`: the logger is stored first; a non-empty config is then decoded
into the config of the client and the outcome of the decoding is returned. -/
def Init {hashLen : Nat} (env : Env hashLen) (c : DataAvailabilityLayerClient)
    (request : InitRequest) (_reply : InitResponse) :
    Option String × DataAvailabilityLayerClient :=
  let c1 := { c with logger := request.logger }
  if request.config.length > 0 then
    let out := env.unmarshalConfig request.config c1.config
    (out.2, { c1 with config := out.1 })
  else
    (none, c1)

/-- The method `SubmitBlock`. -/
def SubmitBlock {hashLen : Nat} (env : Env hashLen) (c : DataAvailabilityLayerClient)
    (block : Block) : ResultSubmitBlock :=
  match env.MarshalBinary block with
  | .error err => { Code := StatusCode.StatusError, Message := err }
  | .ok data =>
    match env.SubmitData c.config.ApiURL c.config.Seed c.config.AppID data with
    | .error err => { Code := StatusCode.StatusError, Message := err }
    | .ok txHash =>
      { Code := StatusCode.StatusSuccess
        Message := "tx hash: " ++ EncodeToString txHash.bytes
        DAHeight := 1 }

/-- The method `CheckBlockAvailability`. -/
def CheckBlockAvailability {hashLen : Nat} (env : Env hashLen)
    (c : DataAvailabilityLayerClient) (dataLayerHeight : Nat) : ResultCheckBlock :=
  let blockNumber := dataLayerHeight
  let confidenceURL := env.Sprintf (c.config.BaseURL ++ "/confidence/%d") blockNumber
  match env.httpGet 0 confidenceURL with
  | .getError err => { Code := StatusCode.StatusError, Message := err }
  | .readError err => { Code := StatusCode.StatusError, Message := err }
  | .body responseData =>
    match env.unmarshalConfidence responseData with
    | .error err => { Code := StatusCode.StatusError, Message := err }
    | .ok confidenceObject =>
      { Code := StatusCode.StatusSuccess
        DAHeight := confidenceObject.Block
        DataAvailable := decide (confidenceObject.Confidence > c.config.Confidence) }

/-- The address that `RetrieveBlocks` reads for a height. -/
def appDataURL {hashLen : Nat} (env : Env hashLen) (c : DataAvailabilityLayerClient)
    (blockNumber : Nat) : String :=
  env.Sprintf (c.config.BaseURL ++ "/appdata/%d?decode=true") blockNumber

/-- The tail of `RetrieveBlocks` from `txnsByteArray := []byte{}` on: the extrinsics
are appended in order, one block is built and appended to `blocks`. -/
def reconstruct (blocks : List Block) (blockNumber : Nat) (appDataObject : AppData) :
    ResultRetrieveBlocks :=
  let txnsByteArray : List UInt8 :=
    appDataObject.Extrinsics.foldl (fun acc extrinsic => acc ++ extrinsic) []
  let block : Block := { Height := blockNumber, Txs := [txnsByteArray] }
  { Code := StatusCode.StatusSuccess
    DAHeight := appDataObject.Block
    Blocks := blocks ++ [block] }

/-- What a pass of the loop returns for a body other than `"Processing block"`: a
function of the body, the formatter and the decoder only. -/
def settle {hashLen : Nat} (env : Env hashLen) (blockNumber : Nat)
    (responseData : List UInt8) : ResultRetrieveBlocks :=
  if responseData = bytesOf "\"Not found\"" then
    reconstruct [] blockNumber { Block := blockNumber % 2 ^ 32, Extrinsics := [] }
  else
    match env.unmarshalAppData responseData with
    | .error err => { Code := StatusCode.StatusError, Message := err }
    | .ok appDataObject => reconstruct [] blockNumber appDataObject

/-- How a run of `RetrieveBlocks` stands: it has returned a result, or it is still in
its loop.  Both carry the addresses requested so far, oldest first. -/
inductive Run where
  | returned (result : ResultRetrieveBlocks) (reads : List String)
  | running (reads : List String)
  deriving DecidableEq, Repr

/-- The body of `RetrieveBlocks` from the label `Loop`, run for at most `fuel` passes;
`reads` holds the requests already made and `blocks` is the slice declared before the
label. -/
def RetrieveBlocks.loop {hashLen : Nat} (env : Env hashLen)
    (c : DataAvailabilityLayerClient) (dataLayerHeight : Nat) (blocks : List Block) :
    Nat → List String → Run
  | 0, reads => Run.running reads
  | fuel + 1, reads =>
    let blockNumber := dataLayerHeight
    let url := appDataURL env c blockNumber
    let reads1 := reads ++ [url]
    match env.httpGet reads.length url with
    | .getError err =>
      Run.returned { Code := StatusCode.StatusError, Message := err } reads1
    | .readError err =>
      Run.returned { Code := StatusCode.StatusError, Message := err } reads1
    | .body responseData =>
      if responseData = bytesOf "\"Not found\"" then
        Run.returned
          (reconstruct blocks blockNumber
            { Block := blockNumber % 2 ^ 32, Extrinsics := [] }) reads1
      else if responseData = bytesOf "\"Processing block\"" then
        RetrieveBlocks.loop env c dataLayerHeight blocks fuel reads1
      else
        match env.unmarshalAppData responseData with
        | .error err =>
          Run.returned { Code := StatusCode.StatusError, Message := err } reads1
        | .ok appDataObject =>
          Run.returned (reconstruct blocks blockNumber appDataObject) reads1

/-- The method `RetrieveBlocks`, run for at most `fuel` passes of its loop. -/
def RetrieveBlocks {hashLen : Nat} (env : Env hashLen) (c : DataAvailabilityLayerClient)
    (dataLayerHeight : Nat) (fuel : Nat) : Run :=
  RetrieveBlocks.loop env c dataLayerHeight [] fuel []

/-- The error texts of the collaborators are not empty, as is the case for the errors
of `net/http`, `io/ioutil` and `encoding/json`. -/
def Env.DiagnosticsNonEmpty {hashLen : Nat} (env : Env hashLen) : Prop :=
  (∀ k url err, env.httpGet k url = .getError err → err ≠ "") ∧
  (∀ k url err, env.httpGet k url = .readError err → err ≠ "") ∧
  (∀ data err, env.unmarshalConfidence data = .error err → err ≠ "") ∧
  (∀ data err, env.unmarshalAppData data = .error err → err ≠ "") ∧
  (∀ block err, env.MarshalBinary block = .error err → err ≠ "") ∧
  (∀ apiURL seed appID data err,
    env.SubmitData apiURL seed appID data = .error err → err ≠ "")

end avail

/-! ## Sample collaborators

A concrete environment on which the theorems below are exercised: a formatter that
substitutes the first `%d`, a remote that answers by address and request number, and
decoders that know a handful of payloads. -/

namespace sample

open da avail

/-- Puts the digits `ds` in place of the first `%d` of a format. -/
def substD : List Char → List Char → List Char
  | [], _ => []
  | [ch], _ => [ch]
  | ch :: ch2 :: rest, ds =>
    if ch = '%' ∧ ch2 = 'd' then ds ++ rest else ch :: substD (ch2 :: rest) ds

/-- A formatter for formats with one `%d`. -/
def sprintf (format : String) (n : Nat) : String :=
  String.mk (substD format.toList (toString n).toList)

/-- A decodable application-data payload for block `7`. -/
def appDataBody : List UInt8 :=
  bytesOf "\x7b\"block\":7,\"extrinsics\":[\"ab\",\"\",\"c\"]\x7d"

/-- A decodable confidence payload for block `7`. -/
def confidenceBody : List UInt8 :=
  bytesOf "\x7b\"block\":7,\"confidence\":93\x7d"

/-- A payload that is not JSON. -/
def brokenBody : List UInt8 := bytesOf "<html>"

/-- A remote: height `7` is processing for the first two reads and ready afterwards,
height `8` and height `4294967296` are absent, height `9` yields a broken payload,
height `10` is processing for ever; every other address refuses the connection. -/
def httpGet (k : Nat) (url : String) : HttpOutcome :=
  if url = "http://avail.test/v1/appdata/7?decode=true" then
    if k < 2 then .body (bytesOf "\"Processing block\"") else .body appDataBody
  else if url = "http://avail.test/v1/appdata/8?decode=true" then
    .body (bytesOf "\"Not found\"")
  else if url = "http://avail.test/v1/appdata/4294967296?decode=true" then
    .body (bytesOf "\"Not found\"")
  else if url = "http://avail.test/v1/appdata/9?decode=true" then
    .body brokenBody
  else if url = "http://avail.test/v1/appdata/10?decode=true" then
    .body (bytesOf "\"Processing block\"")
  else if url = "http://avail.test/v1/confidence/7" then
    .body confidenceBody
  else
    .getError "dial tcp: connection refused"

/-- A remote that answers the first read for height `7` with the ready payload. -/
def httpGetReady (_k : Nat) (url : String) : HttpOutcome :=
  if url = "http://avail.test/v1/appdata/7?decode=true" then .body appDataBody
  else .getError "dial tcp: connection refused"

/-- The config that the sample config payload decodes to. -/
def config : Config :=
  { BaseURL := "http://avail.test/v1", Seed := "seed", ApiURL := "ws://avail.test",
    AppID := 1, Confidence := 92 }

/-- A config payload whose `app_id` has the wrong type. -/
def mistypedConfig : List UInt8 :=
  bytesOf "\x7b\"base_url\":\"http://other.test\",\"app_id\":\"7\"\x7d"

/-- The sample environment, with transaction identifiers of four bytes.  Its config
decoder does what `json.Unmarshal` does on the payloads it knows: a malformed text leaves
the target as it was, a field of the wrong type is skipped and reported after the other
fields have been stored. -/
def env : Env 4 where
  Sprintf := sprintf
  httpGet := httpGet
  unmarshalConfig := fun data cfg =>
    if data = bytesOf "\x7b\"confidence\":92\x7d" then
      ({ cfg with Confidence := 92 }, none)
    else if data = mistypedConfig then
      ({ cfg with BaseURL := "http://other.test" },
        some "json: cannot unmarshal string into Go struct field Config.app_id of type int")
    else (cfg, some "unexpected end of JSON input")
  unmarshalConfidence := fun data =>
    if data = confidenceBody then .ok { Block := 7, Confidence := 93 }
    else .error "invalid character in confidence"
  unmarshalAppData := fun data =>
    if data = appDataBody then
      .ok { Block := 7, Extrinsics := [bytesOf "ab", bytesOf "", bytesOf "c"] }
    else .error "invalid character in appdata"
  MarshalBinary := fun block =>
    if block.Txs = [] then .error "nothing to marshal" else .ok block.Txs.flatten
  SubmitData := fun _ _ _ data =>
    if data = [] then .error "empty payload" else .ok ⟨[0xab, 0x0f, 0x00, 0xff], rfl⟩

/-- The sample environment with the remote that is ready at once. -/
def envReady : Env 4 := { env with httpGet := httpGetReady }

/-- A client holding the sample config. -/
def client : DataAvailabilityLayerClient :=
  { namespaceID := [0, 0, 0, 0, 0, 0, 0, 1], config := config, logger := ⟨0⟩ }

end sample

/-! ## Auxiliary facts -/

namespace avail

open da

/-- Appending the extrinsics one after the other yields their concatenation. -/
theorem foldl_append_eq_flatten (exts : List (List UInt8)) (init : List UInt8) :
    exts.foldl (fun acc extrinsic => acc ++ extrinsic) init = init ++ exts.flatten := by
  induction exts generalizing init with
  | nil => simp
  | cons e rest ih => simp [List.foldl_cons, ih, List.append_assoc]

/-- The block rebuilt from an `AppData`, with the loop over the extrinsics resolved. -/
theorem reconstruct_eq (blockNumber : Nat) (appDataObject : AppData) :
    reconstruct [] blockNumber appDataObject =
      { Code := StatusCode.StatusSuccess
        DAHeight := appDataObject.Block
        Blocks := [{ Height := blockNumber, Txs := [appDataObject.Extrinsics.flatten] }] } := by
  simp [reconstruct, foldl_append_eq_flatten]

/-- The two literals that `RetrieveBlocks` compares the body with are different. -/
theorem processing_ne_notFound :
    bytesOf "\"Processing block\"" ≠ bytesOf "\"Not found\"" := by decide

/-- A pass of the loop that reads `"Processing block"` goes round again. -/
theorem loop_processing_step {hashLen : Nat} (env : Env hashLen)
    (c : DataAvailabilityLayerClient) (h : Nat) (blocks : List Block) (fuel : Nat)
    (reads : List String)
    (hget : env.httpGet reads.length (appDataURL env c h) =
      .body (bytesOf "\"Processing block\"")) :
    RetrieveBlocks.loop env c h blocks (fuel + 1) reads =
      RetrieveBlocks.loop env c h blocks fuel (reads ++ [appDataURL env c h]) := by
  simp only [RetrieveBlocks.loop, hget, if_neg processing_ne_notFound, if_true]

/-- After `n` reads of `"Processing block"` the loop has made `n` requests for the same
address and carries on with the remaining fuel. -/
theorem loop_processing_run {hashLen : Nat} (env : Env hashLen)
    (c : DataAvailabilityLayerClient) (h : Nat) (blocks : List Block) (fuel : Nat) :
    ∀ (n : Nat) (reads : List String),
      (∀ k, k < n → env.httpGet (reads.length + k) (appDataURL env c h) =
        .body (bytesOf "\"Processing block\"")) →
      RetrieveBlocks.loop env c h blocks (n + fuel) reads =
        RetrieveBlocks.loop env c h blocks fuel
          (reads ++ List.replicate n (appDataURL env c h)) := by
  intro n
  induction n with
  | zero => intro reads _; simp
  | succ n ih =>
    intro reads hproc
    have h0 := hproc 0 (Nat.succ_pos n)
    rw [Nat.add_zero] at h0
    have hstep : n + 1 + fuel = (n + fuel) + 1 := by omega
    rw [hstep, loop_processing_step env c h blocks (n + fuel) reads h0]
    rw [ih (reads ++ [appDataURL env c h])]
    · simp [List.replicate_succ]
    · intro k hk
      have := hproc (k + 1) (Nat.succ_lt_succ hk)
      simpa [Nat.add_assoc, Nat.add_comm 1 k] using this

/-- A remote that always answers `"Processing block"` keeps the loop running: with any
fuel `n` the loop makes `n` requests and has not returned. -/
theorem loop_processing_forever {hashLen : Nat} (env : Env hashLen)
    (c : DataAvailabilityLayerClient) (h : Nat)
    (hproc : ∀ k, env.httpGet k (appDataURL env c h) =
      .body (bytesOf "\"Processing block\"")) (n : Nat) :
    RetrieveBlocks env c h n = Run.running (List.replicate n (appDataURL env c h)) := by
  have := loop_processing_run env c h [] 0 n [] (fun k _ => by simpa using hproc k)
  simpa [RetrieveBlocks, RetrieveBlocks.loop] using this

/-- A pass of the loop that reads a body other than `"Processing block"` returns. -/
theorem loop_body_step {hashLen : Nat} (env : Env hashLen)
    (c : DataAvailabilityLayerClient) (h : Nat) (fuel : Nat) (reads : List String)
    (r : List UInt8)
    (hget : env.httpGet reads.length (appDataURL env c h) = .body r)
    (hne : r ≠ bytesOf "\"Processing block\"") :
    RetrieveBlocks.loop env c h [] (fuel + 1) reads =
      Run.returned (settle env h r) (reads ++ [appDataURL env c h]) := by
  simp only [RetrieveBlocks.loop, hget, settle, if_neg hne]
  by_cases hnf : r = bytesOf "\"Not found\""
  · simp [hnf]
  · simp only [if_neg hnf]
    cases env.unmarshalAppData r <;> rfl

end avail

/-! ## Hexadecimal encoding -/

namespace avail

open da

/-- Every index below sixteen selects a character of `hextable`. -/
theorem hextable_getD_mem : ∀ n, n < 16 → hextable.getD n '0' ∈ hextable := by decide

/-- The high nibble of a byte is below sixteen. -/
theorem high_nibble_lt (v : UInt8) : v.toNat >>> 4 < 16 := by
  have hv : v.toNat < 256 := v.val.isLt
  rw [Nat.shiftRight_eq_div_pow]
  omega

/-- The low nibble of a byte is below sixteen. -/
theorem low_nibble_lt (v : UInt8) : v.toNat &&& 0x0f < 16 :=
  Nat.and_lt_two_pow v.toNat (show 15 < 2 ^ 4 by decide)

/-- The character that `hextable` holds at an index below sixteen has that index as
its value. -/
theorem fromHexChar_hextable :
    ∀ n, n < 16 → fromHexChar (hextable.getD n '0') = some n := by decide

/-- A byte is put together again from its two nibbles. -/
theorem byte_of_nibbles (v : UInt8) :
    UInt8.ofNat ((v.toNat >>> 4) <<< 4 ||| (v.toNat &&& 0x0f)) = v := by
  have hv : v.toNat < 256 := v.val.isLt
  have h : (v.toNat >>> 4) <<< 4 ||| (v.toNat &&& 0x0f) = v.toNat := by
    apply Nat.eq_of_testBit_eq
    intro i
    simp only [Nat.testBit_or, Nat.testBit_shiftLeft, Nat.testBit_shiftRight,
      Nat.testBit_and]
    by_cases hi : 4 ≤ i
    · have h15 : (15 : Nat).testBit i = false := by
        apply Nat.testBit_lt_two_pow
        calc 15 < 2 ^ 4 := by decide
          _ ≤ 2 ^ i := Nat.pow_le_pow_right (by decide) hi
      simp [hi, h15, Nat.add_sub_cancel' hi]
    · have hlt : i < 4 := Nat.lt_of_not_le hi
      have h15 : (15 : Nat).testBit i = true := by
        interval_cases i <;> decide
      simp [hi, h15]
  rw [h]
  apply UInt8.eq_of_toBitVec_eq
  apply BitVec.eq_of_toNat_eq
  exact UInt8.toBitVec_eq_of_lt hv

/-- Reading back what `EncodeToString` wrote gives the bytes that were encoded. -/
theorem DecodeString_EncodeToString (src : List UInt8) :
    DecodeString (EncodeToString src).toList = some src := by
  induction src with
  | nil => rfl
  | cons v rest ih =>
    have hhi := fromHexChar_hextable _ (high_nibble_lt v)
    have hlo := fromHexChar_hextable _ (low_nibble_lt v)
    simp only [EncodeToString, String.toList, List.flatMap_cons, List.cons_append,
      List.nil_append] at ih ⊢
    simp only [DecodeString, hhi, hlo, ih, byte_of_nibbles]

/-- Different byte strings have different encodings. -/
theorem EncodeToString_injective (a b : List UInt8)
    (h : EncodeToString a = EncodeToString b) : a = b := by
  have ha := DecodeString_EncodeToString a
  rw [h, DecodeString_EncodeToString b] at ha
  exact (Option.some.inj ha).symm

/-- What follows the label `"tx hash: "` in a message that starts with it. -/
theorem drop_label (text : String) :
    ("tx hash: " ++ text).toList.drop "tx hash: ".length = text.toList := by
  simp [String.toList, String.length]

/-- The encoding has two characters per byte. -/
theorem EncodeToString_length (src : List UInt8) :
    (EncodeToString src).length = 2 * src.length := by
  induction src with
  | nil => rfl
  | cons v rest ih =>
    simp only [EncodeToString, String.length, List.length_cons] at ih ⊢
    simp only [List.flatMap_cons, List.cons_append, List.nil_append, List.length_cons]
    omega

/-- The encoding uses the characters of `hextable` only. -/
theorem EncodeToString_chars (src : List UInt8) :
    ∀ ch ∈ (EncodeToString src).toList, ch ∈ hextable := by
  intro ch hch
  simp only [EncodeToString, String.toList, List.mem_flatMap] at hch
  obtain ⟨v, _, hv⟩ := hch
  simp only [List.mem_cons, List.mem_singleton, List.not_mem_nil, or_false] at hv
  rcases hv with hv | hv
  · rw [hv]; exact hextable_getD_mem _ (high_nibble_lt v)
  · rw [hv]; exact hextable_getD_mem _ (low_nibble_lt v)

end avail

/-! ## The operations -/

namespace avail

open da

/-- C1. `CheckBlockAvailability`: when the remote answers the confidence read for the
height with a body that decodes to a record of confidence `c`, the result has
`Code = StatusSuccess`, and it is a success with `DataAvailable = true` exactly when `c`
is strictly above the configured threshold `t`; for `c ≤ t`, the boundary `c = t`
included, `DataAvailable = false`. -/
theorem CheckBlockAvailability_available_iff {hashLen : Nat} (env : Env hashLen)
    (c : DataAvailabilityLayerClient) (h : Nat) (responseData : List UInt8)
    (confidenceObject : Confidence)
    (hget : env.httpGet 0 (env.Sprintf (c.config.BaseURL ++ "/confidence/%d") h) =
      .body responseData)
    (hdec : env.unmarshalConfidence responseData = .ok confidenceObject) :
    (CheckBlockAvailability env c h).Code = StatusCode.StatusSuccess ∧
    (((CheckBlockAvailability env c h).Code = StatusCode.StatusSuccess ∧
        (CheckBlockAvailability env c h).DataAvailable = true) ↔
      confidenceObject.Confidence > c.config.Confidence) ∧
    (confidenceObject.Confidence ≤ c.config.Confidence →
      (CheckBlockAvailability env c h).DataAvailable = false) := by
  have hres : CheckBlockAvailability env c h =
      { Code := StatusCode.StatusSuccess
        DAHeight := confidenceObject.Block
        DataAvailable := decide (confidenceObject.Confidence > c.config.Confidence) } := by
    simp only [CheckBlockAvailability, hget, hdec]
  rw [hres]
  refine ⟨rfl, ?_, ?_⟩
  · simp
  · intro hle
    simpa using hle

/-- C1, exercised: block `7` of the sample remote has confidence `93`, the client's
threshold is `92`. -/
theorem CheckBlockAvailability_available_iff_witness :
    sample.env.httpGet 0
        (sample.env.Sprintf (sample.client.config.BaseURL ++ "/confidence/%d") 7) =
      .body sample.confidenceBody ∧
    (CheckBlockAvailability sample.env sample.client 7).DataAvailable = true :=
  ⟨by decide,
    ((CheckBlockAvailability_available_iff sample.env sample.client 7
        sample.confidenceBody { Block := 7, Confidence := 93 } (by decide) rfl).2.1.mpr
      (by show (93 : ℚ) > 92; norm_num)).2⟩

/-- C6. `SubmitBlock`: when the block serialises and the transport returns the
transaction identifier `x`, the result has `Code = StatusSuccess` and its `Message` is
`"tx hash: "` followed by the hexadecimal encoding of `x`, which has two characters per
byte of `x` (so `2 * hashLen` characters for every block), all of them among
`0123456789abcdef`.  The text after the label is `x` and no other identifier: read as
hexadecimal it gives back the bytes of `x`, and a message that carries the encoding of
an identifier `y` has `y = x`. -/
theorem SubmitBlock_success_message {hashLen : Nat} (env : Env hashLen)
    (c : DataAvailabilityLayerClient) (block : Block) (data : List UInt8)
    (txHash : Hash hashLen)
    (hmarshal : env.MarshalBinary block = .ok data)
    (hsubmit : env.SubmitData c.config.ApiURL c.config.Seed c.config.AppID data =
      .ok txHash) :
    (SubmitBlock env c block).Code = StatusCode.StatusSuccess ∧
    (SubmitBlock env c block).Message = "tx hash: " ++ EncodeToString txHash.bytes ∧
    (EncodeToString txHash.bytes).length = 2 * hashLen ∧
    (∀ ch ∈ (EncodeToString txHash.bytes).toList, ch ∈ "0123456789abcdef".toList) ∧
    DecodeString ((SubmitBlock env c block).Message.toList.drop "tx hash: ".length) =
      some txHash.bytes ∧
    (∀ y : List UInt8,
      (SubmitBlock env c block).Message = "tx hash: " ++ EncodeToString y →
      y = txHash.bytes) := by
  have hres : SubmitBlock env c block =
      { Code := StatusCode.StatusSuccess
        Message := "tx hash: " ++ EncodeToString txHash.bytes
        DAHeight := 1 } := by
    simp only [SubmitBlock, hmarshal, hsubmit]
  rw [hres]
  refine ⟨rfl, rfl, ?_, EncodeToString_chars txHash.bytes, ?_, ?_⟩
  · rw [EncodeToString_length, txHash.size_eq]
  · show DecodeString (("tx hash: " ++ EncodeToString txHash.bytes).toList.drop
      "tx hash: ".length) = some txHash.bytes
    rw [drop_label, DecodeString_EncodeToString]
  · intro y hy
    have hy1 : "tx hash: " ++ EncodeToString txHash.bytes =
        "tx hash: " ++ EncodeToString y := hy
    have hdrop := congrArg (fun m : String => m.toList.drop "tx hash: ".length) hy1
    simp only [drop_label] at hdrop
    have hdec := DecodeString_EncodeToString txHash.bytes
    rw [hdrop, DecodeString_EncodeToString y] at hdec
    exact Option.some.inj hdec

/-- C6, exercised: the sample transport returns the identifier `ab 0f 00 ff`; the
message carries `ab0f00ff`, which reads back as these four bytes. -/
theorem SubmitBlock_success_message_witness :
    sample.env.MarshalBinary { Height := 3, Txs := [[1, 2], [3]] } = .ok [1, 2, 3] ∧
    (SubmitBlock sample.env sample.client { Height := 3, Txs := [[1, 2], [3]] }).Message =
      "tx hash: ab0f00ff" ∧
    DecodeString
        ((SubmitBlock sample.env sample.client
          { Height := 3, Txs := [[1, 2], [3]] }).Message.toList.drop "tx hash: ".length) =
      some [0xab, 0x0f, 0x00, 0xff] :=
  ⟨rfl,
    (SubmitBlock_success_message sample.env sample.client
      { Height := 3, Txs := [[1, 2], [3]] } [1, 2, 3] ⟨[0xab, 0x0f, 0x00, 0xff], rfl⟩
      rfl rfl).2.1,
    (SubmitBlock_success_message sample.env sample.client
      { Height := 3, Txs := [[1, 2], [3]] } [1, 2, 3] ⟨[0xab, 0x0f, 0x00, 0xff], rfl⟩
      rfl rfl).2.2.2.2.1⟩

/-- C2. `RetrieveBlocks`: when the remote answers the read for height `h` with a body
that decodes to an `AppData` with extrinsics `e1, ..., en`, `n ≥ 0` (a body that
reaches the decoder: it is neither of the two literals, which are JSON strings and not
objects), the call returns after that one read; the result has
`Code = StatusSuccess` and `Blocks` holds exactly one block, of height `h`, whose
transaction list holds exactly one entry, the concatenation `e1 ++ ... ++ en`. -/
theorem RetrieveBlocks_appdata_block {hashLen : Nat} (env : Env hashLen)
    (c : DataAvailabilityLayerClient) (h fuel : Nat) (r : List UInt8) (block : Nat)
    (extrinsics : List (List UInt8))
    (hget : env.httpGet 0 (appDataURL env c h) = .body r)
    (hnf : r ≠ bytesOf "\"Not found\"")
    (hpr : r ≠ bytesOf "\"Processing block\"")
    (hdec : env.unmarshalAppData r = .ok { Block := block, Extrinsics := extrinsics }) :
    ∃ res, RetrieveBlocks env c h (fuel + 1) = Run.returned res [appDataURL env c h] ∧
      res.Code = StatusCode.StatusSuccess ∧
      res.Blocks = [{ Height := h, Txs := [extrinsics.flatten] }] := by
  refine ⟨settle env h r, ?_, ?_, ?_⟩
  · simpa using loop_body_step env c h fuel [] r hget hpr
  · simp only [settle, if_neg hnf, hdec, reconstruct_eq]
  · simp only [settle, if_neg hnf, hdec, reconstruct_eq]

/-- C2, exercised: the ready sample remote answers the first read for height `7` with
the extrinsics `"ab"`, `""`, `"c"`. -/
theorem RetrieveBlocks_appdata_block_witness :
    sample.envReady.httpGet 0 (appDataURL sample.envReady sample.client 7) =
      .body sample.appDataBody ∧
    ∃ res, RetrieveBlocks sample.envReady sample.client 7 1 =
        Run.returned res [appDataURL sample.envReady sample.client 7] ∧
      res.Code = StatusCode.StatusSuccess ∧
      res.Blocks = [{ Height := 7, Txs := [[97, 98, 99]] }] :=
  ⟨by decide,
    RetrieveBlocks_appdata_block sample.envReady sample.client 7 0 sample.appDataBody 7
      [bytesOf "ab", bytesOf "", bytesOf "c"] (by decide) (by decide) (by decide) rfl⟩

/-- C3, refuted as stated: for height `8`, which the sample remote reports as
`"Not found"`, the single block returned has one transaction, not zero. -/
theorem RetrieveBlocks_not_found_has_one_tx :
    ∃ res reads, RetrieveBlocks sample.env sample.client 8 1 = Run.returned res reads ∧
      res.Code = StatusCode.StatusSuccess ∧
      res.Blocks.map (fun b => b.Txs.length) = [1] ∧
      res.Blocks ≠ [{ Height := 8, Txs := [] }] :=
  ⟨_, _, rfl, by decide, by decide, by decide⟩

/-- C3, amended. `RetrieveBlocks`: when the remote answers the read for height `h` with
the literal `"Not found"`, the call returns after that one read; the result has
`Code = StatusSuccess` and `Blocks` holds exactly one block, of height `h`, whose
transaction list holds exactly one entry, the empty byte string. -/
theorem RetrieveBlocks_not_found_block {hashLen : Nat} (env : Env hashLen)
    (c : DataAvailabilityLayerClient) (h fuel : Nat)
    (hget : env.httpGet 0 (appDataURL env c h) = .body (bytesOf "\"Not found\"")) :
    ∃ res, RetrieveBlocks env c h (fuel + 1) = Run.returned res [appDataURL env c h] ∧
      res.Code = StatusCode.StatusSuccess ∧
      res.Blocks = [{ Height := h, Txs := [[]] }] := by
  refine ⟨settle env h (bytesOf "\"Not found\""), ?_, ?_, ?_⟩
  · simpa using
      loop_body_step env c h fuel [] _ hget (Ne.symm processing_ne_notFound)
  · simp only [settle, if_true, reconstruct_eq]
  · simp only [settle, if_true, reconstruct_eq, List.flatten_nil]

/-- C3 amended, exercised on height `8` of the sample remote. -/
theorem RetrieveBlocks_not_found_block_witness :
    sample.env.httpGet 0 (appDataURL sample.env sample.client 8) =
      .body (bytesOf "\"Not found\"") ∧
    ∃ res, RetrieveBlocks sample.env sample.client 8 3 =
        Run.returned res [appDataURL sample.env sample.client 8] ∧
      res.Code = StatusCode.StatusSuccess ∧
      res.Blocks = [{ Height := 8, Txs := [[]] }] :=
  ⟨by decide, RetrieveBlocks_not_found_block sample.env sample.client 8 2 (by decide)⟩

/-- C4. `RetrieveBlocks`: when the remote answers the read for height `h` with a body
that is neither `"Not found"` nor `"Processing block"` and that fails to decode with the
diagnostic `err`, the call returns after that one read; the result has
`Code = StatusError`, its `Message` is `err`, which is not empty, and it has no
blocks. -/
theorem RetrieveBlocks_decode_error {hashLen : Nat} (env : Env hashLen)
    (c : DataAvailabilityLayerClient) (h fuel : Nat) (r : List UInt8) (err : String)
    (hget : env.httpGet 0 (appDataURL env c h) = .body r)
    (hnf : r ≠ bytesOf "\"Not found\"")
    (hpr : r ≠ bytesOf "\"Processing block\"")
    (hdec : env.unmarshalAppData r = .error err)
    (herr : err ≠ "") :
    ∃ res, RetrieveBlocks env c h (fuel + 1) = Run.returned res [appDataURL env c h] ∧
      res.Code = StatusCode.StatusError ∧
      res.Message = err ∧ res.Message ≠ "" ∧
      res.Blocks = [] := by
  refine ⟨settle env h r, ?_, ?_, ?_, ?_, ?_⟩
  · simpa using loop_body_step env c h fuel [] r hget hpr
  · simp only [settle, if_neg hnf, hdec]
  · simp only [settle, if_neg hnf, hdec]
  · simpa only [settle, if_neg hnf, hdec] using herr
  · simp only [settle, if_neg hnf, hdec]

/-- C4, exercised on height `9` of the sample remote, whose body is not JSON. -/
theorem RetrieveBlocks_decode_error_witness :
    sample.env.httpGet 0 (appDataURL sample.env sample.client 9) =
      .body sample.brokenBody ∧
    sample.env.unmarshalAppData sample.brokenBody =
      .error "invalid character in appdata" ∧
    ∃ res, RetrieveBlocks sample.env sample.client 9 1 =
        Run.returned res [appDataURL sample.env sample.client 9] ∧
      res.Code = StatusCode.StatusError ∧
      res.Message = "invalid character in appdata" ∧ res.Message ≠ "" ∧
      res.Blocks = [] :=
  ⟨by decide, rfl,
    RetrieveBlocks_decode_error sample.env sample.client 9 0 sample.brokenBody
      "invalid character in appdata" (by decide) (by decide) (by decide) rfl (by decide)⟩

end avail

/-! ## The retry loop, error results and `Init` -/

namespace avail

open da

/-- Whatever the loop returns with `Code = StatusError` carries the error text of a
collaborator and nothing else. -/
theorem loop_error_fields {hashLen : Nat} (env : Env hashLen)
    (c : DataAvailabilityLayerClient) (h : Nat) (hdiag : env.DiagnosticsNonEmpty) :
    ∀ (fuel : Nat) (reads : List String) (res : ResultRetrieveBlocks)
      (reads1 : List String),
      RetrieveBlocks.loop env c h [] fuel reads = Run.returned res reads1 →
      res.Code = StatusCode.StatusError →
      res.Message ≠ "" ∧ res.DAHeight = 0 ∧ res.Blocks = [] := by
  obtain ⟨hgetE, hreadE, _, happE, _, _⟩ := hdiag
  intro fuel
  induction fuel with
  | zero => intro reads res reads1 hrun; simp [RetrieveBlocks.loop] at hrun
  | succ fuel ih =>
    intro reads res reads1 hrun hcode
    cases hout : env.httpGet reads.length (appDataURL env c h) with
    | getError err =>
      simp only [RetrieveBlocks.loop, hout, Run.returned.injEq] at hrun
      obtain ⟨hres, _⟩ := hrun
      subst hres
      exact ⟨hgetE _ _ _ hout, by trivial, by trivial⟩
    | readError err =>
      simp only [RetrieveBlocks.loop, hout, Run.returned.injEq] at hrun
      obtain ⟨hres, _⟩ := hrun
      subst hres
      exact ⟨hreadE _ _ _ hout, by trivial, by trivial⟩
    | body r =>
      by_cases hpr : r = bytesOf "\"Processing block\""
      · subst hpr
        rw [loop_processing_step env c h [] fuel reads hout] at hrun
        exact ih _ _ _ hrun hcode
      · rw [loop_body_step env c h fuel reads r hout hpr] at hrun
        simp only [Run.returned.injEq] at hrun
        obtain ⟨hres, _⟩ := hrun
        subst hres
        by_cases hnf : r = bytesOf "\"Not found\""
        · simp [settle, hnf, reconstruct_eq] at hcode
        · cases hdec : env.unmarshalAppData r with
          | error err =>
            simp only [settle, if_neg hnf, hdec]
            exact ⟨happE _ _ hdec, by trivial, by trivial⟩
          | ok appDataObject =>
            simp [settle, hnf, hdec, reconstruct_eq] at hcode

/-- When the remote reports `"Not found"`, the `DAHeight` of the result is the requested
height reduced modulo `2 ^ 32`; it is the requested height below `2 ^ 32`. -/
theorem not_found_DAHeight_mod {hashLen : Nat} (env : Env hashLen)
    (c : DataAvailabilityLayerClient) (h fuel : Nat)
    (hget : env.httpGet 0 (appDataURL env c h) = .body (bytesOf "\"Not found\"")) :
    ∃ res, RetrieveBlocks env c h (fuel + 1) = Run.returned res [appDataURL env c h] ∧
      res.DAHeight = h % 2 ^ 32 ∧ (h < 2 ^ 32 → res.DAHeight = h) := by
  refine ⟨settle env h (bytesOf "\"Not found\""), ?_, ?_, ?_⟩
  · simpa using
      loop_body_step env c h fuel [] _ hget (Ne.symm processing_ne_notFound)
  · simp only [settle, if_true, reconstruct_eq]
  · intro hlt
    simp only [settle, if_true, reconstruct_eq]
    exact Nat.mod_eq_of_lt hlt

/-- C5, refuted as stated: height `10` of the sample remote answers every read with
`"Processing block"`; with any number of passes `RetrieveBlocks` is still in its loop,
so it returns no result and no status. -/
theorem RetrieveBlocks_processing_no_budget :
    (∀ fuel, RetrieveBlocks sample.env sample.client 10 fuel =
      Run.running (List.replicate fuel "http://avail.test/v1/appdata/10?decode=true")) ∧
    ¬ ∃ fuel res reads,
      RetrieveBlocks sample.env sample.client 10 fuel = Run.returned res reads := by
  have hrun : ∀ fuel, RetrieveBlocks sample.env sample.client 10 fuel =
      Run.running (List.replicate fuel "http://avail.test/v1/appdata/10?decode=true") :=
    fun fuel => loop_processing_forever sample.env sample.client 10 (fun _ => rfl) fuel
  refine ⟨hrun, ?_⟩
  rintro ⟨fuel, res, reads, hret⟩
  rw [hrun fuel] at hret
  cases hret

/-- C5, amended. `RetrieveBlocks`: against a remote that answers every read for height
`h` with `"Processing block"`, the call does not return; after any number `fuel` of
passes it has issued `fuel` reads, all for the address of height `h`, and is still in
its loop. -/
theorem RetrieveBlocks_processing_never_returns {hashLen : Nat} (env : Env hashLen)
    (c : DataAvailabilityLayerClient) (h : Nat)
    (hproc : ∀ k, env.httpGet k (appDataURL env c h) =
      .body (bytesOf "\"Processing block\"")) :
    ∀ fuel, RetrieveBlocks env c h fuel =
      Run.running (List.replicate fuel (appDataURL env c h)) :=
  fun fuel => loop_processing_forever env c h hproc fuel

/-- C5 amended, exercised on height `10` of the sample remote. -/
theorem RetrieveBlocks_processing_never_returns_witness :
    (∀ k, sample.env.httpGet k (appDataURL sample.env sample.client 10) =
      .body (bytesOf "\"Processing block\"")) ∧
    RetrieveBlocks sample.env sample.client 10 3 =
      Run.running (List.replicate 3 (appDataURL sample.env sample.client 10)) :=
  ⟨fun _ => rfl,
    RetrieveBlocks_processing_never_returns sample.env sample.client 10 (fun _ => rfl) 3⟩

/-- C7, at the failing input: height `4294967296 = 2 ^ 32` is reported as
`"Not found"`; the result is a success whose block has the requested height while its
`DAHeight` is `0`. -/
theorem RetrieveBlocks_not_found_DAHeight_wraps :
    ∃ res reads,
      RetrieveBlocks sample.env sample.client 4294967296 1 = Run.returned res reads ∧
      res.Code = StatusCode.StatusSuccess ∧
      res.Blocks.map (fun b => b.Height) = [4294967296] ∧
      res.DAHeight = 0 ∧ res.DAHeight ≠ 4294967296 :=
  ⟨_, _, rfl, by decide, by decide, by decide, by decide⟩

/-- C8. Under collaborators whose error texts are not empty, every result of
`SubmitBlock`, `CheckBlockAvailability` and `RetrieveBlocks` with `Code = StatusError`
has a non-empty `Message` and all other fields zero: `DAHeight = 0`,
`DataAvailable = false`, no blocks. -/
theorem error_result_fields {hashLen : Nat} (env : Env hashLen)
    (c : DataAvailabilityLayerClient) (hdiag : env.DiagnosticsNonEmpty) :
    (∀ block, (SubmitBlock env c block).Code = StatusCode.StatusError →
      (SubmitBlock env c block).Message ≠ "" ∧ (SubmitBlock env c block).DAHeight = 0) ∧
    (∀ h, (CheckBlockAvailability env c h).Code = StatusCode.StatusError →
      (CheckBlockAvailability env c h).Message ≠ "" ∧
      (CheckBlockAvailability env c h).DAHeight = 0 ∧
      (CheckBlockAvailability env c h).DataAvailable = false) ∧
    (∀ h fuel res reads, RetrieveBlocks env c h fuel = Run.returned res reads →
      res.Code = StatusCode.StatusError →
      res.Message ≠ "" ∧ res.DAHeight = 0 ∧ res.Blocks = []) := by
  refine ⟨?_, ?_, ?_⟩
  · obtain ⟨_, _, _, _, hmarE, hsubE⟩ := hdiag
    intro block
    cases hm : env.MarshalBinary block with
    | error err =>
      simp only [SubmitBlock, hm]
      exact fun _ => ⟨hmarE _ _ hm, by trivial⟩
    | ok data =>
      cases hs : env.SubmitData c.config.ApiURL c.config.Seed c.config.AppID data with
      | error err =>
        simp only [SubmitBlock, hm, hs]
        exact fun _ => ⟨hsubE _ _ _ _ _ hs, by trivial⟩
      | ok txHash =>
        simp only [SubmitBlock, hm, hs]
        intro hcode
        cases hcode
  · obtain ⟨hgetE, hreadE, hconfE, _, _, _⟩ := hdiag
    intro h
    cases hout : env.httpGet 0 (env.Sprintf (c.config.BaseURL ++ "/confidence/%d") h) with
    | getError err =>
      simp only [CheckBlockAvailability, hout]
      exact fun _ => ⟨hgetE _ _ _ hout, by trivial, by trivial⟩
    | readError err =>
      simp only [CheckBlockAvailability, hout]
      exact fun _ => ⟨hreadE _ _ _ hout, by trivial, by trivial⟩
    | body responseData =>
      cases hdec : env.unmarshalConfidence responseData with
      | error err =>
        simp only [CheckBlockAvailability, hout, hdec]
        exact fun _ => ⟨hconfE _ _ hdec, by trivial, by trivial⟩
      | ok confidenceObject =>
        simp only [CheckBlockAvailability, hout, hdec]
        intro hcode
        cases hcode
  · intro h fuel res reads hrun hcode
    exact loop_error_fields env c h hdiag fuel [] res reads hrun hcode

end avail

namespace avail

open da

/-- The error texts of the sample collaborators are not empty. -/
theorem sample_diagnostics : sample.env.DiagnosticsNonEmpty := by
  refine ⟨?_, ?_, ?_, ?_, ?_, ?_⟩
  · intro k url err hout
    simp only [sample.env, sample.httpGet] at hout
    split_ifs at hout
    cases hout
    decide
  · intro k url err hout
    simp only [sample.env, sample.httpGet] at hout
    split_ifs at hout
  · intro data err hdec
    simp only [sample.env] at hdec
    split_ifs at hdec
    cases hdec
    decide
  · intro data err hdec
    simp only [sample.env] at hdec
    split_ifs at hdec
    cases hdec
    decide
  · intro block err hm
    simp only [sample.env] at hm
    split_ifs at hm
    cases hm
    decide
  · intro apiURL seed appID data err hs
    simp only [sample.env] at hs
    split_ifs at hs
    cases hs
    decide

/-- C8, exercised: the broken payload of height `9` yields an error result with a
non-empty message and no other field set. -/
theorem error_result_fields_witness :
    sample.env.DiagnosticsNonEmpty ∧
    ∃ res reads, RetrieveBlocks sample.env sample.client 9 1 = Run.returned res reads ∧
      res.Code = StatusCode.StatusError ∧
      (res.Message ≠ "" ∧ res.DAHeight = 0 ∧ res.Blocks = []) :=
  ⟨sample_diagnostics, _, _, rfl, rfl,
    (error_result_fields sample.env sample.client sample_diagnostics).2.2 9 1 _ _ rfl rfl⟩

/-- C9, refuted as stated: the config `{` does not decode, `Init` returns the error, and
the logger of the client is no longer the one it had before the call; for a config
whose `app_id` is a string, `Init` returns the error and the `BaseURL` of the client has
changed as well. -/
theorem Init_malformed_changes_logger :
    (Init sample.env sample.client
        { namespaceID := [], config := bytesOf "\x7b", kvStore := ⟨0⟩, logger := ⟨5⟩ }
        ⟨none⟩).1 = some "unexpected end of JSON input" ∧
    (Init sample.env sample.client
        { namespaceID := [], config := bytesOf "\x7b", kvStore := ⟨0⟩, logger := ⟨5⟩ }
        ⟨none⟩).2.logger ≠ sample.client.logger ∧
    (Init sample.env sample.client
        { namespaceID := [], config := bytesOf "\x7b", kvStore := ⟨0⟩, logger := ⟨5⟩ }
        ⟨none⟩).2 ≠ sample.client ∧
    (Init sample.env sample.client
        { namespaceID := [], config := sample.mistypedConfig, kvStore := ⟨0⟩,
          logger := ⟨0⟩ }
        ⟨none⟩).1 ≠ none ∧
    sample.client.config.BaseURL = "http://avail.test/v1" ∧
    (Init sample.env sample.client
        { namespaceID := [], config := sample.mistypedConfig, kvStore := ⟨0⟩,
          logger := ⟨0⟩ }
        ⟨none⟩).2.config.BaseURL = "http://other.test" := by
  refine ⟨by decide, by decide, ?_, by decide, by decide, by decide⟩
  intro heq
  have hlog := congrArg DataAvailabilityLayerClient.logger heq
  revert hlog
  decide

/-- C9, amended. `Init`: for every client state and every non-empty config byte string
whose decoding fails with `err`, `Init` returns `err`; the namespace of the client is
the one it had before the call, its logger is the logger of the request, and its config
is what the decoder left in place (so the client differs from its state before the call
in the logger only, when the decoder wrote nothing). -/
theorem Init_malformed_state {hashLen : Nat} (env : Env hashLen)
    (c : DataAvailabilityLayerClient) (request : InitRequest) (reply : InitResponse)
    (err : String)
    (hlen : 0 < request.config.length)
    (hdec : (env.unmarshalConfig request.config c.config).2 = some err) :
    (Init env c request reply).1 = some err ∧
    (Init env c request reply).2.namespaceID = c.namespaceID ∧
    (Init env c request reply).2.logger = request.logger ∧
    (Init env c request reply).2.config =
      (env.unmarshalConfig request.config c.config).1 ∧
    ((env.unmarshalConfig request.config c.config).1 = c.config →
      (Init env c request reply).2 = { c with logger := request.logger }) := by
  have hpos : request.config.length > 0 := hlen
  simp only [Init, if_pos hpos]
  refine ⟨hdec, by trivial, by trivial, by trivial, ?_⟩
  intro hcfg
  rw [hcfg]

/-- C9 amended, exercised on the config `{` and the sample client. -/
theorem Init_malformed_state_witness :
    0 < (bytesOf "\x7b").length ∧
    (Init sample.env sample.client
        { namespaceID := [], config := bytesOf "\x7b", kvStore := ⟨0⟩, logger := ⟨5⟩ }
        ⟨none⟩).2 = { sample.client with logger := ⟨5⟩ } :=
  ⟨by decide,
    (Init_malformed_state sample.env sample.client
      { namespaceID := [], config := bytesOf "\x7b", kvStore := ⟨0⟩, logger := ⟨5⟩ }
      ⟨none⟩ "unexpected end of JSON input" (by decide) (by decide)).2.2.2.2 rfl⟩

/-- C10. `RetrieveBlocks`: against a remote that answers the reads for height `h` with
`n` bodies `"Processing block"` followed by a body `r` other than `"Processing block"`,
the call is still in its loop after any `fuel ≤ n` passes, and with `n + 1` passes or
more it returns after exactly `n + 1` reads, all for the address of height `h`; the
result is the one it returns against a remote (with the same formatter and decoder)
that answers `r` on the first read. -/
theorem RetrieveBlocks_retry_same_result {hashLen : Nat} (env env1 : Env hashLen)
    (c : DataAvailabilityLayerClient) (h n : Nat) (r : List UInt8)
    (hfmt : env1.Sprintf = env.Sprintf)
    (hjson : env1.unmarshalAppData = env.unmarshalAppData)
    (hproc : ∀ k, k < n → env.httpGet k (appDataURL env c h) =
      .body (bytesOf "\"Processing block\""))
    (hr : env.httpGet n (appDataURL env c h) = .body r)
    (hne : r ≠ bytesOf "\"Processing block\"")
    (hfirst : env1.httpGet 0 (appDataURL env c h) = .body r) :
    ∃ res,
      (∀ fuel, RetrieveBlocks env1 c h (fuel + 1) =
        Run.returned res [appDataURL env c h]) ∧
      (∀ fuel, RetrieveBlocks env c h (n + 1 + fuel) =
        Run.returned res (List.replicate (n + 1) (appDataURL env c h))) ∧
      (∀ fuel, fuel ≤ n → RetrieveBlocks env c h fuel =
        Run.running (List.replicate fuel (appDataURL env c h))) := by
  have hurl : appDataURL env1 c h = appDataURL env c h := by
    simp only [appDataURL, hfmt]
  have hsettle : settle env1 h r = settle env h r := by
    simp only [settle, hjson]
  refine ⟨settle env h r, ?_, ?_, ?_⟩
  · intro fuel
    have hget1 : env1.httpGet ([] : List String).length (appDataURL env1 c h) =
        .body r := by rw [hurl]; exact hfirst
    have := loop_body_step env1 c h fuel [] r hget1 hne
    simpa [RetrieveBlocks, hurl, hsettle] using this
  · intro fuel
    have hrun := loop_processing_run env c h [] (fuel + 1) n []
      (fun k hk => by simpa using hproc k hk)
    have hlen : ([] ++ List.replicate n (appDataURL env c h)).length = n := by simp
    have hget : env.httpGet ([] ++ List.replicate n (appDataURL env c h)).length
        (appDataURL env c h) = .body r := by rw [hlen]; exact hr
    have hstep := loop_body_step env c h fuel _ r hget hne
    have hfuel : n + 1 + fuel = n + (fuel + 1) := by omega
    rw [RetrieveBlocks, hfuel, hrun, hstep]
    simp [List.replicate_succ']
  · intro fuel hle
    have hrun := loop_processing_run env c h [] 0 fuel []
      (fun k hk => by simpa using hproc k (Nat.lt_of_lt_of_le hk hle))
    simpa [RetrieveBlocks, RetrieveBlocks.loop] using hrun

/-- C10, exercised on height `7` of the sample remote: two reads of
`"Processing block"`, then the ready payload on the third read. -/
theorem RetrieveBlocks_retry_same_result_witness :
    (∀ k, k < 2 → sample.env.httpGet k (appDataURL sample.env sample.client 7) =
      .body (bytesOf "\"Processing block\"")) ∧
    sample.env.httpGet 2 (appDataURL sample.env sample.client 7) =
      .body sample.appDataBody ∧
    ∃ res,
      (∀ fuel, RetrieveBlocks sample.envReady sample.client 7 (fuel + 1) =
        Run.returned res [appDataURL sample.env sample.client 7]) ∧
      (∀ fuel, RetrieveBlocks sample.env sample.client 7 (2 + 1 + fuel) =
        Run.returned res (List.replicate (2 + 1) (appDataURL sample.env sample.client 7))) ∧
      (∀ fuel, fuel ≤ 2 → RetrieveBlocks sample.env sample.client 7 fuel =
        Run.running (List.replicate fuel (appDataURL sample.env sample.client 7))) :=
  ⟨by decide, by decide,
    RetrieveBlocks_retry_same_result sample.env sample.envReady sample.client 7 2
      sample.appDataBody rfl rfl (by decide) (by decide) (by decide) (by decide)⟩

end avail
